import Mathlib

/-!
Shallow embedding of the geometric layout core of the glazewm window
manager: the integer rectangle value type from
`packages/wm-common/src/rect.rs` and the recursive tiling layout
resolver from `packages/wm/src/traits/position_getters.rs`.

Machine integers (`i32`) are modelled as `Int`; the source relies on
no wraparound behaviour.  The `f32` tiling ratio is modelled as `ℚ`
with Rust's `f32::round` (ties away from zero) made explicit.
-/

namespace Glaze

/-- Integer point, from `wm-common` (`Point { x, y }`). -/
structure Point where
  x : Int
  y : Int
deriving DecidableEq

/-- Axis-aligned integer rectangle, from `rect.rs` (`Rect { left, top, right, bottom }`). -/
structure Rect where
  left : Int
  top : Int
  right : Int
  bottom : Int
deriving DecidableEq

namespace Rect

/-- Constructor `Rect::from_ltrb`. -/
def from_ltrb (left top right bottom : Int) : Rect :=
  ⟨left, top, right, bottom⟩

/-- Constructor `Rect::from_xy`. -/
def from_xy (x y width height : Int) : Rect :=
  ⟨x, y, x + width, y + height⟩

/-- Accessor `Rect::x`. -/
def x (r : Rect) : Int := r.left

/-- Accessor `Rect::y`. -/
def y (r : Rect) : Int := r.top

/-- Accessor `Rect::width`. -/
def width (r : Rect) : Int := r.right - r.left

/-- Accessor `Rect::height`. -/
def height (r : Rect) : Int := r.bottom - r.top

/-- Method `Rect::clamp`. -/
def clamp (r outer_rect : Rect) : Rect :=
  from_xy (max r.left outer_rect.left) (max r.top outer_rect.top)
    (min r.width outer_rect.width) (min r.height outer_rect.height)

/-- Method `Rect::clamp_within_bounds`: the two `let mut` variables of the
source become successive `let` bindings. -/
def clamp_within_bounds (r outer_rect : Rect) : Rect :=
  let clamped_width := min r.width outer_rect.width
  let clamped_height := min r.height outer_rect.height
  let x0 := r.x
  let y0 := r.y
  let x1 := if x0 + clamped_width > outer_rect.right
    then outer_rect.right - clamped_width else x0
  let y1 := if y0 + clamped_height > outer_rect.bottom
    then outer_rect.bottom - clamped_height else y0
  let x2 := max x1 outer_rect.left
  let y2 := max y1 outer_rect.top
  from_xy x2 y2 clamped_width clamped_height

/-- Method `Rect::clamp_size`. -/
def clamp_size (r : Rect) (w h : Int) : Rect :=
  from_xy r.x r.y (min r.width w) (min r.height h)

/-- Method `Rect::center_point`.  Rust `i32` division truncates toward
zero, which is `Int.tdiv`. -/
def center_point (r : Rect) : Point :=
  ⟨r.left + Int.tdiv r.width 2, r.top + Int.tdiv r.height 2⟩

/-- Method `Rect::has_overlap_x`. -/
def has_overlap_x (r other : Rect) : Bool :=
  !(decide (r.x + r.width ≤ other.x) || decide (other.x + other.width ≤ r.x))

/-- Method `Rect::has_overlap_y`. -/
def has_overlap_y (r other : Rect) : Bool :=
  !(decide (r.y + r.height ≤ other.y) || decide (other.y + other.height ≤ r.y))

/-- Method `Rect::contains_point`. -/
def contains_point (r : Rect) (point : Point) : Bool :=
  let is_in_x := decide (point.x ≥ r.left) && decide (point.x ≤ r.right)
  let is_in_y := decide (point.y ≥ r.top) && decide (point.y ≤ r.bottom)
  is_in_x && is_in_y

end Rect

/-- Modelled from the spec: the unit of a Length Value, which is "either an
absolute pixel amount or a percentage of a reference dimension"; the
`LengthValue` type of `wm-common` is not under `src/`. -/
inductive LengthUnit where
  | pixel
  | percentage
deriving DecidableEq

/-- Modelled from the spec: a Length Value is a scalar amount together with
its unit; its source in `wm-common` is not under `src/`. -/
structure LengthValue where
  amount : ℚ
  unit : LengthUnit
deriving DecidableEq

/-- Truncation of a rational toward zero, the behaviour of Rust's
`as i32` cast on a finite `f32`. -/
def ratTrunc (q : ℚ) : Int :=
  Int.tdiv q.num q.den

namespace LengthValue

/-- Modelled from the spec: construction of a pixel-exact Length Value from
an integer pixel amount (`LengthValue::from_px`, not under `src/`). -/
def from_px (px : Int) : LengthValue :=
  ⟨(px : ℚ), .pixel⟩

/-- Modelled from the spec: resolution of a Length Value to pixels
(`LengthValue::to_px`, not under `src/`): "for proportional values,
multiply the percentage by the reference dimension; the scale factor,
when present, further scales absolute pixel values". -/
def to_px (lv : LengthValue) (totalPx : Int) (scaleFactor : Option ℚ) : Int :=
  match lv.unit with
  | .percentage => ratTrunc (lv.amount / 100 * (totalPx : ℚ))
  | .pixel => ratTrunc (lv.amount * scaleFactor.getD 1)

end LengthValue

/-- Per-edge delta between two rectangles, from `wm-common`
(`RectDelta { left, top, right, bottom }`). -/
structure RectDelta where
  left : LengthValue
  top : LengthValue
  right : LengthValue
  bottom : LengthValue
deriving DecidableEq

namespace Rect

/-- Method `Rect::delta`. -/
def delta (r other : Rect) : RectDelta :=
  { left := .from_px (other.left - r.left)
    top := .from_px (other.top - r.top)
    right := .from_px (r.right - other.right)
    bottom := .from_px (r.bottom - other.bottom) }

/-- Method `Rect::apply_delta`. -/
def apply_delta (r : Rect) (d : RectDelta) (scale_factor : Option ℚ) : Rect :=
  from_ltrb
    (r.left - d.left.to_px r.width scale_factor)
    (r.top - d.top.to_px r.height scale_factor)
    (r.right + d.right.to_px r.width scale_factor)
    (r.bottom + d.bottom.to_px r.height scale_factor)

/-- Method `Rect::apply_inverse_delta`. -/
def apply_inverse_delta (r : Rect) (d : RectDelta) (scale_factor : Option ℚ) : Rect :=
  from_ltrb
    (r.left + d.left.to_px r.width scale_factor)
    (r.top + d.top.to_px r.height scale_factor)
    (r.right - d.right.to_px r.width scale_factor)
    (r.bottom - d.bottom.to_px r.height scale_factor)

end Rect

/-- Tiling axis of a direction container (`TilingDirection`). -/
inductive TilingDirection where
  | Vertical
  | Horizontal
deriving DecidableEq

/-- Rounding to the nearest integer with ties away from zero: the
behaviour of Rust's `f32::round` followed by `as i32`, applied in the
resolver to `available as f32 * tiling_size`. -/
def roundTiesAway (q : ℚ) : Int :=
  if 0 ≤ q then ⌊q + 1 / 2⌋ else ⌈q - 1 / 2⌉

/-- A container of the tree, carrying exactly the read-only capabilities
the resolver consumes (spec §6).  A `workspace` is a direction-capable
root whose rectangle derivation terminates the recursion; a `tiling`
container is a split container (when `ownDir` is `some`) or a tiling
window (when `ownDir` is `none`), with its parent reference, its
previous tiling siblings in nearest-first order, the number of
following tiling siblings, its tiling size, and its configured inner
gaps. -/
inductive Container : Type where
  | workspace (rect : Rect) (tilingDir : TilingDirection) : Container
  | tiling (ownDir : Option TilingDirection) (parent : Option Container)
      (prevTiling : List Container) (nextTilingCount : Nat)
      (tilingSize : ℚ) (horizontalGap verticalGap : Int) : Container

/-- Capability downcast `as_direction_container`: succeeds exactly on
containers that declare a tiling axis for their children. -/
def asDirectionContainer : Container → Option TilingDirection
  | .workspace _ d => some d
  | .tiling ownDir _ _ _ _ _ _ => ownDir

/-- The structural layout error message of the resolver
(`context("Parent does not have a tiling direction.")`). -/
def structuralErr : String :=
  "Parent does not have a tiling direction."

/-- The resolver `to_rect` of `impl_position_getters_as_resizable`.  The
`?` operator of the source becomes an explicit match on the
intermediate `Except` value.  The source matches the filtered
`prev_siblings` sequence three times (once per axis branch for the
primary-axis start and once when recomputing the final position); the
resolver is deterministic, so those identical matches and the repeated
`to_rect` call on the immediately preceding tiling sibling are merged
into the top-level case split on `prevTiling` here, and the final
position recomputation coincides with the start already derived in the
axis branch. -/
def toRect : Container → Except String Rect
  | .workspace rect _ => .ok rect
  | .tiling _ none _ _ _ _ _ => .error structuralErr
  | .tiling _ (some p) [] nextTilingCount tilingSize hGap vGap =>
    match asDirectionContainer p with
    | none => .error structuralErr
    | some tilingDir =>
      match toRect p with
      | .error e => .error e
      | .ok parentRect =>
        let innerGap : Int :=
          match tilingDir with
          | .Vertical => vGap
          | .Horizontal => hGap
        let siblingCount : Int := (nextTilingCount : Int)
        let isLast := nextTilingCount = 0
        match tilingDir with
        | .Vertical =>
          let availableHeight := parentRect.height - innerGap * siblingCount
          let height0 := roundTiesAway ((availableHeight : ℚ) * tilingSize)
          let yPos := parentRect.y
          let height := if isLast then parentRect.bottom - yPos else height0
          .ok (Rect.from_xy parentRect.x yPos parentRect.width height)
        | .Horizontal =>
          let availableWidth := parentRect.width - innerGap * siblingCount
          let width0 := roundTiesAway ((availableWidth : ℚ) * tilingSize)
          let xPos := parentRect.x
          let width := if isLast then parentRect.right - xPos else width0
          .ok (Rect.from_xy xPos parentRect.y width parentRect.height)
  | .tiling _ (some p) (s :: t) nextTilingCount tilingSize hGap vGap =>
    match asDirectionContainer p with
    | none => .error structuralErr
    | some tilingDir =>
      match toRect p with
      | .error e => .error e
      | .ok parentRect =>
        match toRect s with
        | .error e => .error e
        | .ok siblingRect =>
          let innerGap : Int :=
            match tilingDir with
            | .Vertical => vGap
            | .Horizontal => hGap
          let siblingCount : Int := ((t.length + 1 : Nat) : Int) + nextTilingCount
          let isLast := nextTilingCount = 0
          match tilingDir with
          | .Vertical =>
            let availableHeight := parentRect.height - innerGap * siblingCount
            let height0 := roundTiesAway ((availableHeight : ℚ) * tilingSize)
            let yPos := siblingRect.y + siblingRect.height + innerGap
            let height := if isLast then parentRect.bottom - yPos else height0
            .ok (Rect.from_xy parentRect.x yPos parentRect.width height)
          | .Horizontal =>
            let availableWidth := parentRect.width - innerGap * siblingCount
            let width0 := roundTiesAway ((availableWidth : ℚ) * tilingSize)
            let xPos := siblingRect.x + siblingRect.width + innerGap
            let width := if isLast then parentRect.right - xPos else width0
            .ok (Rect.from_xy xPos parentRect.y width parentRect.height)

/-- Resolve every container of a list, failing on the first error. -/
def toRects : List Container → Except String (List Rect)
  | [] => .ok []
  | c :: cs =>
    match toRect c with
    | .error e => .error e
    | .ok r =>
      match toRects cs with
      | .error e => .error e
      | .ok rs => .ok (r :: rs)

/-- Builds the ordered family of tiling children of one parent, one child
per tiling size: each child records the already-built earlier children
as its previous tiling siblings (nearest first) and the number of
remaining sizes as its count of following tiling siblings. -/
def childrenAux (parent : Container) (hGap vGap : Int) :
    List Container → List ℚ → List Container
  | _, [] => []
  | prev, q :: rest =>
    let c := Container.tiling none (some parent) prev rest.length q hGap vGap
    c :: childrenAux parent hGap vGap (c :: prev) rest

/-- The inner gap the resolver selects for a given parent axis. -/
def gapFor (d : TilingDirection) (hGap vGap : Int) : Int :=
  match d with
  | .Vertical => vGap
  | .Horizontal => hGap

/-- Near edge of a rectangle on the primary (tiling) axis. -/
def primaryStart (d : TilingDirection) (r : Rect) : Int :=
  match d with
  | .Vertical => r.top
  | .Horizontal => r.left

/-- Far edge of a rectangle on the primary (tiling) axis. -/
def primaryFar (d : TilingDirection) (r : Rect) : Int :=
  match d with
  | .Vertical => r.bottom
  | .Horizontal => r.right

/-- Size of a rectangle on the primary (tiling) axis. -/
def primarySize (d : TilingDirection) (r : Rect) : Int :=
  match d with
  | .Vertical => r.height
  | .Horizontal => r.width

/-- Near edge of a rectangle on the cross axis. -/
def crossStart (d : TilingDirection) (r : Rect) : Int :=
  match d with
  | .Vertical => r.left
  | .Horizontal => r.top

/-- Size of a rectangle on the cross axis. -/
def crossSize (d : TilingDirection) (r : Rect) : Int :=
  match d with
  | .Vertical => r.width
  | .Horizontal => r.height

/-- Every container on the recursive resolution path of `toRect` has a
direction-capable parent: the parent exists and exposes the
Direction-Container capability, and the same holds recursively for the
parent and for the immediately preceding tiling sibling (the only
containers `toRect` recurses into). -/
inductive Resolvable : Container → Prop where
  | workspace (rect : Rect) (d : TilingDirection) :
      Resolvable (.workspace rect d)
  | tilingFirst {p : Container} {d : TilingDirection}
      (ownDir : Option TilingDirection) (nc : Nat) (q : ℚ) (hG vG : Int)
      (hdir : asDirectionContainer p = some d) (hp : Resolvable p) :
      Resolvable (.tiling ownDir (some p) [] nc q hG vG)
  | tilingRest {p s : Container} {d : TilingDirection}
      (ownDir : Option TilingDirection) (t : List Container) (nc : Nat)
      (q : ℚ) (hG vG : Int)
      (hdir : asDirectionContainer p = some d) (hp : Resolvable p)
      (hs : Resolvable s) :
      Resolvable (.tiling ownDir (some p) (s :: t) nc q hG vG)

/-!
Theorems.
-/

/-- Helper: truncation toward zero of an integer cast is the identity. -/
theorem ratTrunc_intCast (n : Int) : ratTrunc (n : ℚ) = n := by
  unfold ratTrunc
  simp [Rat.num_intCast, Rat.den_intCast]

/-- C2: containment for clamp_within_bounds — for all rectangles `r` and
outer bounds `o`, including degenerate ones, the result's near edges are
at least `o`'s and its far edges at most `o`'s. -/
theorem clamp_within_bounds_containment (r o : Rect) :
    o.left ≤ (r.clamp_within_bounds o).left ∧
    o.top ≤ (r.clamp_within_bounds o).top ∧
    (r.clamp_within_bounds o).right ≤ o.right ∧
    (r.clamp_within_bounds o).bottom ≤ o.bottom := by
  simp only [Rect.clamp_within_bounds, Rect.from_xy, Rect.width, Rect.height,
    Rect.x, Rect.y]
  split_ifs <;> refine ⟨?_, ?_, ?_, ?_⟩ <;> omega

/-- C7: clamp raises the origin to at least the outer origin and caps the
size to the outer size, and there are rectangles for which the result's
far edge lies strictly outside the outer far edge — clamp gives no
far-edge containment guarantee. -/
theorem clamp_semantics :
    (∀ r o : Rect, r.clamp o =
      Rect.from_xy (max r.left o.left) (max r.top o.top)
        (min r.width o.width) (min r.height o.height)) ∧
    ∃ r o : Rect,
      o.right < (r.clamp o).right ∨ o.bottom < (r.clamp o).bottom := by
  refine ⟨fun r o => rfl, Rect.from_xy 100 0 10 10, Rect.from_xy 0 0 50 50, ?_⟩
  decide

/-- C8: the overlap tests are false exactly when the intervals are
disjoint with touching edges excluded (strict `<=` comparison on the
edges). -/
theorem has_overlap_strict (a b : Rect) :
    (a.has_overlap_x b = false ↔ (a.right ≤ b.left ∨ b.right ≤ a.left)) ∧
    (a.has_overlap_y b = false ↔ (a.bottom ≤ b.top ∨ b.bottom ≤ a.top)) := by
  simp only [Rect.has_overlap_x, Rect.has_overlap_y, Rect.x, Rect.y,
    Rect.width, Rect.height, Bool.not_eq_false', Bool.or_eq_true,
    decide_eq_true_eq]
  constructor <;> constructor <;> intro h <;> omega

/-- C9: contains_point is inclusive on all four edges. -/
theorem contains_point_inclusive (r : Rect) (p : Point) :
    r.contains_point p = true ↔
      (r.left ≤ p.x ∧ p.x ≤ r.right ∧ r.top ≤ p.y ∧ p.y ≤ r.bottom) := by
  simp only [Rect.contains_point, Bool.and_eq_true, decide_eq_true_eq, ge_iff_le]
  constructor <;> intro h <;> omega

/-- C10: for every rectangle with non-negative width and height, the
truncated integer center point lies inside the rectangle. -/
theorem center_point_mem (r : Rect) (hw : r.left ≤ r.right)
    (hh : r.top ≤ r.bottom) :
    r.contains_point r.center_point = true := by
  have h1 : Int.tdiv (r.right - r.left) 2 = (r.right - r.left) / 2 :=
    Int.tdiv_eq_ediv (by omega) (by omega)
  have h2 : Int.tdiv (r.bottom - r.top) 2 = (r.bottom - r.top) / 2 :=
    Int.tdiv_eq_ediv (by omega) (by omega)
  simp only [Rect.contains_point, Rect.center_point, Rect.width, Rect.height,
    h1, h2, Bool.and_eq_true, decide_eq_true_eq, ge_iff_le]
  omega

/-- Witness for C10 at the rectangle with corners (0,0) and (5,7). -/
theorem center_point_mem_witness :
    (0 : Int) ≤ 5 ∧ (0 : Int) ≤ 7 ∧
      (Rect.mk 0 0 5 7).contains_point (Rect.mk 0 0 5 7).center_point = true :=
  ⟨by decide, by decide, center_point_mem ⟨0, 0, 5, 7⟩ (by decide) (by decide)⟩

/-- Counterexample for C3 as stated: applying the delta of two rectangles
to the first does not give the second, even with pixel-exact components
and no scale factor. -/
theorem apply_delta_delta_ne :
    Rect.apply_delta ⟨0, 0, 10, 10⟩
        (Rect.delta ⟨0, 0, 10, 10⟩ ⟨1, 1, 12, 12⟩) none ≠ ⟨1, 1, 12, 12⟩ := by
  simp only [Rect.apply_delta, Rect.delta, LengthValue.from_px,
    LengthValue.to_px, Option.getD_none, mul_one, ratTrunc_intCast,
    Rect.from_ltrb, Rect.mk.injEq, ne_eq]
  omega

/-- C3 amended: it is apply_inverse_delta that inverts delta — for all
rectangles `a`, `b`, with `d = a.delta b` (pixel-exact components, no
scale factor), `a.apply_inverse_delta d = b` exactly. -/
theorem apply_inverse_delta_delta (a b : Rect) :
    a.apply_inverse_delta (a.delta b) none = b := by
  obtain ⟨al, at', ar, ab⟩ := a
  obtain ⟨bl, bt, br, bb⟩ := b
  simp only [Rect.apply_inverse_delta, Rect.delta, LengthValue.from_px,
    LengthValue.to_px, Option.getD, mul_one, ratTrunc_intCast,
    Rect.from_ltrb]
  simp only [Rect.mk.injEq]
  omega

/-- Helper: evaluation of the resolver on a tiling container with no
previous tiling sibling under a Vertical parent. -/
theorem toRect_vertFirst (od : Option TilingDirection) (p : Container)
    (nc : Nat) (q : ℚ) (hG vG : Int) (pr : Rect)
    (hdir : asDirectionContainer p = some .Vertical)
    (hp : toRect p = .ok pr) :
    toRect (.tiling od (some p) [] nc q hG vG) =
      .ok (Rect.from_xy pr.left pr.top (pr.right - pr.left)
        (if nc = 0 then pr.bottom - pr.top
         else roundTiesAway (((pr.bottom - pr.top - vG * nc : Int) : ℚ) * q))) := by
  simp only [toRect, hdir, hp, Rect.width, Rect.height, Rect.x, Rect.y,
    List.length_nil, Nat.cast_zero, zero_add]

/-- Helper: evaluation of the resolver on a tiling container with a
previous tiling sibling under a Vertical parent. -/
theorem toRect_vertRest (od : Option TilingDirection) (p s : Container)
    (t : List Container) (nc : Nat) (q : ℚ) (hG vG : Int) (pr sr : Rect)
    (hdir : asDirectionContainer p = some .Vertical)
    (hp : toRect p = .ok pr) (hs : toRect s = .ok sr) :
    toRect (.tiling od (some p) (s :: t) nc q hG vG) =
      .ok (Rect.from_xy pr.left (sr.top + (sr.bottom - sr.top) + vG)
        (pr.right - pr.left)
        (if nc = 0 then pr.bottom - (sr.top + (sr.bottom - sr.top) + vG)
         else roundTiesAway
           (((pr.bottom - pr.top - vG * (((t.length + 1 : Nat) : Int) + nc) : Int) : ℚ) * q))) := by
  simp only [toRect, hdir, hp, hs, Rect.width, Rect.height, Rect.x, Rect.y]

/-- Helper: evaluation of the resolver on a tiling container with no
previous tiling sibling under a Horizontal parent. -/
theorem toRect_horizFirst (od : Option TilingDirection) (p : Container)
    (nc : Nat) (q : ℚ) (hG vG : Int) (pr : Rect)
    (hdir : asDirectionContainer p = some .Horizontal)
    (hp : toRect p = .ok pr) :
    toRect (.tiling od (some p) [] nc q hG vG) =
      .ok (Rect.from_xy pr.left pr.top
        (if nc = 0 then pr.right - pr.left
         else roundTiesAway (((pr.right - pr.left - hG * nc : Int) : ℚ) * q))
        (pr.bottom - pr.top)) := by
  simp only [toRect, hdir, hp, Rect.width, Rect.height, Rect.x, Rect.y,
    List.length_nil, Nat.cast_zero, zero_add]

/-- Helper: evaluation of the resolver on a tiling container with a
previous tiling sibling under a Horizontal parent. -/
theorem toRect_horizRest (od : Option TilingDirection) (p s : Container)
    (t : List Container) (nc : Nat) (q : ℚ) (hG vG : Int) (pr sr : Rect)
    (hdir : asDirectionContainer p = some .Horizontal)
    (hp : toRect p = .ok pr) (hs : toRect s = .ok sr) :
    toRect (.tiling od (some p) (s :: t) nc q hG vG) =
      .ok (Rect.from_xy (sr.left + (sr.right - sr.left) + hG) pr.top
        (if nc = 0 then pr.right - (sr.left + (sr.right - sr.left) + hG)
         else roundTiesAway
           (((pr.right - pr.left - hG * (((t.length + 1 : Nat) : Int) + nc) : Int) : ℚ) * q))
        (pr.bottom - pr.top)) := by
  simp only [toRect, hdir, hp, hs, Rect.width, Rect.height, Rect.x, Rect.y]

/-- Helper: the workspace root resolves to its own rectangle. -/
theorem toRect_workspace (rect : Rect) (d : TilingDirection) :
    toRect (.workspace rect d) = .ok rect := by
  simp [toRect]

/-- Helper: a tiling container with no parent fails with the structural
layout error. -/
theorem toRect_parentNone (od : Option TilingDirection) (prev : List Container)
    (nc : Nat) (q : ℚ) (hG vG : Int) :
    toRect (.tiling od none prev nc q hG vG) = .error structuralErr := by
  simp [toRect]

/-- Helper: a tiling container whose parent is not direction-capable fails
with the structural layout error. -/
theorem toRect_parentNoDir (od : Option TilingDirection) (p : Container)
    (prev : List Container) (nc : Nat) (q : ℚ) (hG vG : Int)
    (h : asDirectionContainer p = none) :
    toRect (.tiling od (some p) prev nc q hG vG) = .error structuralErr := by
  cases prev <;> simp [toRect, h]

/-- Helper: an error from the recursive parent resolution propagates
unchanged. -/
theorem toRect_parentErr (od : Option TilingDirection) (p : Container)
    (prev : List Container) (nc : Nat) (q : ℚ) (hG vG : Int)
    (pdir : TilingDirection) (e : String)
    (hdir : asDirectionContainer p = some pdir) (hp : toRect p = .error e) :
    toRect (.tiling od (some p) prev nc q hG vG) = .error e := by
  cases prev <;> simp [toRect, hdir, hp]

/-- Helper: an error from the previous tiling sibling's resolution
propagates unchanged. -/
theorem toRect_sibErr (od : Option TilingDirection) (p s : Container)
    (t : List Container) (nc : Nat) (q : ℚ) (hG vG : Int)
    (pdir : TilingDirection) (pr : Rect) (e : String)
    (hdir : asDirectionContainer p = some pdir) (hp : toRect p = .ok pr)
    (hs : toRect s = .error e) :
    toRect (.tiling od (some p) (s :: t) nc q hG vG) = .error e := by
  simp [toRect, hdir, hp, hs]

/-- C6: vertical rounding scenario — parent of height 1001 with vertical
axis and gap 10, two children of tiling size one half: the first child
gets the provisional rounded height 496 and the last child fills
exactly to the parent's bottom edge, the two heights plus the gap
summing to 1001. -/
theorem vertical_rounding_scenario :
    ∃ r1 r2 : Rect,
      toRect (Container.tiling none
          (some (Container.workspace ⟨0, 0, 300, 1001⟩ .Vertical))
          [] 1 (1 / 2) 10 10) = .ok r1 ∧
      toRect (Container.tiling none
          (some (Container.workspace ⟨0, 0, 300, 1001⟩ .Vertical))
          [Container.tiling none
            (some (Container.workspace ⟨0, 0, 300, 1001⟩ .Vertical))
            [] 1 (1 / 2) 10 10]
          0 (1 / 2) 10 10) = .ok r2 ∧
      r1.height = roundTiesAway ((1001 - 10 : ℚ) * (1 / 2)) ∧
      r1.height = 496 ∧
      r2.bottom = (1001 : Int) ∧
      r1.height + r2.height + 10 = 1001 := by
  have hW : toRect (Container.workspace ⟨0, 0, 300, 1001⟩ .Vertical) =
      .ok ⟨0, 0, 300, 1001⟩ := toRect_workspace _ _
  have hround : roundTiesAway ((991 : ℚ) / 2) = 496 := by
    rw [roundTiesAway]
    norm_num
  have h1 : toRect (Container.tiling none
      (some (Container.workspace ⟨0, 0, 300, 1001⟩ .Vertical))
      [] 1 (1 / 2) 10 10) = .ok ⟨0, 0, 300, 496⟩ := by
    rw [toRect_vertFirst none
      (Container.workspace ⟨0, 0, 300, 1001⟩ .Vertical)
      1 (1 / 2) 10 10 ⟨0, 0, 300, 1001⟩ rfl hW]
    norm_num [Rect.from_xy, hround]
  have h2 : toRect (Container.tiling none
      (some (Container.workspace ⟨0, 0, 300, 1001⟩ .Vertical))
      [Container.tiling none
        (some (Container.workspace ⟨0, 0, 300, 1001⟩ .Vertical))
        [] 1 (1 / 2) 10 10]
      0 (1 / 2) 10 10) = .ok ⟨0, 506, 300, 1001⟩ := by
    rw [toRect_vertRest none
      (Container.workspace ⟨0, 0, 300, 1001⟩ .Vertical)
      (Container.tiling none
        (some (Container.workspace ⟨0, 0, 300, 1001⟩ .Vertical))
        [] 1 (1 / 2) 10 10)
      [] 0 (1 / 2) 10 10 ⟨0, 0, 300, 1001⟩
      ⟨0, 0, 300, 496⟩ rfl hW h1]
    norm_num [Rect.from_xy]
  refine ⟨⟨0, 0, 300, 496⟩, ⟨0, 506, 300, 1001⟩, h1, h2, ?_, ?_, rfl, ?_⟩
  · show (496 : Int) - 0 = _
    rw [show ((1001 - 10 : ℚ) * (1 / 2)) = (991 : ℚ) / 2 by norm_num, hround]
    decide
  · decide
  · decide

/-- Helper: one-step unfolding of `toRects` when both the head and the
tail resolve. -/
theorem toRects_cons_ok {c : Container} {cs : List Container} {r : Rect}
    {rs : List Rect} (hc : toRect c = .ok r) (hcs : toRects cs = .ok rs) :
    toRects (c :: cs) = .ok (r :: rs) := by
  simp [toRects, hc, hcs]

/-- Helper: one-step unfolding of `childrenAux` on a nonempty size list. -/
theorem childrenAux_cons (parent : Container) (hG vG : Int)
    (prev : List Container) (q : ℚ) (rest : List ℚ) :
    childrenAux parent hG vG prev (q :: rest) =
      Container.tiling none (some parent) prev rest.length q hG vG ::
        childrenAux parent hG vG
          (Container.tiling none (some parent) prev rest.length q hG vG :: prev)
          rest := rfl

/-- Helper: telescoping sum of the resolved heights of a vertical tiling
family.  The hypothesis ties the start coordinate to the resolved
bottom edge of the nearest previous tiling sibling (or to the parent's
top edge when there is none). -/
theorem childrenAux_vert_sum (P : Rect) (hG vG : Int) :
    ∀ (sizes : List ℚ) (prev : List Container) (startY : Int),
      sizes ≠ [] →
      (match prev with
       | [] => startY = P.top
       | s :: _ => ∃ sr, toRect s = .ok sr ∧ sr.bottom + vG = startY) →
      ∃ rs,
        toRects (childrenAux (Container.workspace P .Vertical) hG vG prev sizes)
          = .ok rs ∧
        (rs.map Rect.height).sum
          = P.bottom - startY - vG * ((sizes.length : Int) - 1) := by
  intro sizes
  induction sizes with
  | nil => intro prev startY h _; exact absurd rfl h
  | cons q rest ih =>
    intro prev startY _ hprev
    have hW : toRect (Container.workspace P .Vertical) = .ok P :=
      toRect_workspace _ _
    have hchild : ∀ nc : Nat,
        toRect (Container.tiling none (some (Container.workspace P .Vertical))
            prev nc q hG vG) =
          .ok (Rect.from_xy P.left startY (P.right - P.left)
            (if nc = 0 then P.bottom - startY
             else roundTiesAway
               (((P.bottom - P.top - vG * ((prev.length : Int) + (nc : Int)) : Int) : ℚ)
                 * q))) := by
      intro nc
      match prev, hprev with
      | [], hstart =>
        rw [toRect_vertFirst none (Container.workspace P .Vertical)
          nc q hG vG P rfl hW]
        subst hstart
        norm_num
      | s :: t, ⟨sr, hsr, hend⟩ =>
        rw [toRect_vertRest none (Container.workspace P .Vertical)
          s t nc q hG vG P sr rfl hW hsr]
        have hy : sr.top + (sr.bottom - sr.top) + vG = startY := by omega
        rw [hy]
        norm_num
    match rest with
    | [] =>
      have h0 := hchild 0
      rw [if_pos rfl] at h0
      refine ⟨[Rect.from_xy P.left startY (P.right - P.left) (P.bottom - startY)],
        ?_, ?_⟩
      · rw [childrenAux_cons]
        exact toRects_cons_ok h0 rfl
      · simp only [List.map_cons, List.map_nil, List.sum_cons, List.sum_nil,
          Rect.height, Rect.from_xy, List.length_cons, List.length_nil]
        push_cast
        ring
    | q2 :: rest2 =>
      have h1 := hchild (q2 :: rest2).length
      rw [if_neg (by simp : ¬((q2 :: rest2 : List ℚ).length = 0))] at h1
      obtain ⟨rs', hrs', hsum⟩ := ih
        (Container.tiling none (some (Container.workspace P .Vertical))
          prev (q2 :: rest2).length q hG vG :: prev)
        (startY + roundTiesAway
          (((P.bottom - P.top
              - vG * ((prev.length : Int) + (((q2 :: rest2).length : Nat) : Int)) : Int) : ℚ)
            * q) + vG)
        (by simp)
        ⟨_, h1, rfl⟩
      refine ⟨Rect.from_xy P.left startY (P.right - P.left)
          (roundTiesAway
            (((P.bottom - P.top
                - vG * ((prev.length : Int) + (((q2 :: rest2).length : Nat) : Int)) : Int) : ℚ)
              * q))
        :: rs', ?_, ?_⟩
      · rw [childrenAux_cons]
        exact toRects_cons_ok h1 hrs'
      · simp only [List.map_cons, List.sum_cons, hsum, Rect.height,
          Rect.from_xy, List.length_cons]
        push_cast
        ring

/-- Helper: telescoping sum of the resolved widths of a horizontal tiling
family, the mirror image of the vertical case. -/
theorem childrenAux_horiz_sum (P : Rect) (hG vG : Int) :
    ∀ (sizes : List ℚ) (prev : List Container) (startX : Int),
      sizes ≠ [] →
      (match prev with
       | [] => startX = P.left
       | s :: _ => ∃ sr, toRect s = .ok sr ∧ sr.right + hG = startX) →
      ∃ rs,
        toRects (childrenAux (Container.workspace P .Horizontal) hG vG prev sizes)
          = .ok rs ∧
        (rs.map Rect.width).sum
          = P.right - startX - hG * ((sizes.length : Int) - 1) := by
  intro sizes
  induction sizes with
  | nil => intro prev startX h _; exact absurd rfl h
  | cons q rest ih =>
    intro prev startX _ hprev
    have hW : toRect (Container.workspace P .Horizontal) = .ok P :=
      toRect_workspace _ _
    have hchild : ∀ nc : Nat,
        toRect (Container.tiling none (some (Container.workspace P .Horizontal))
            prev nc q hG vG) =
          .ok (Rect.from_xy startX P.top
            (if nc = 0 then P.right - startX
             else roundTiesAway
               (((P.right - P.left - hG * ((prev.length : Int) + (nc : Int)) : Int) : ℚ)
                 * q))
            (P.bottom - P.top)) := by
      intro nc
      match prev, hprev with
      | [], hstart =>
        rw [toRect_horizFirst none (Container.workspace P .Horizontal)
          nc q hG vG P rfl hW]
        subst hstart
        norm_num
      | s :: t, ⟨sr, hsr, hend⟩ =>
        rw [toRect_horizRest none (Container.workspace P .Horizontal)
          s t nc q hG vG P sr rfl hW hsr]
        have hx : sr.left + (sr.right - sr.left) + hG = startX := by omega
        rw [hx]
        norm_num
    match rest with
    | [] =>
      have h0 := hchild 0
      rw [if_pos rfl] at h0
      refine ⟨[Rect.from_xy startX P.top (P.right - startX) (P.bottom - P.top)],
        ?_, ?_⟩
      · rw [childrenAux_cons]
        exact toRects_cons_ok h0 rfl
      · simp only [List.map_cons, List.map_nil, List.sum_cons, List.sum_nil,
          Rect.width, Rect.from_xy, List.length_cons, List.length_nil]
        push_cast
        ring
    | q2 :: rest2 =>
      have h1 := hchild (q2 :: rest2).length
      rw [if_neg (by simp : ¬((q2 :: rest2 : List ℚ).length = 0))] at h1
      obtain ⟨rs', hrs', hsum⟩ := ih
        (Container.tiling none (some (Container.workspace P .Horizontal))
          prev (q2 :: rest2).length q hG vG :: prev)
        (startX + roundTiesAway
          (((P.right - P.left
              - hG * ((prev.length : Int) + (((q2 :: rest2).length : Nat) : Int)) : Int) : ℚ)
            * q) + hG)
        (by simp)
        ⟨_, h1, rfl⟩
      refine ⟨Rect.from_xy startX P.top
          (roundTiesAway
            (((P.right - P.left
                - hG * ((prev.length : Int) + (((q2 :: rest2).length : Nat) : Int)) : Int) : ℚ)
              * q))
          (P.bottom - P.top)
        :: rs', ?_, ?_⟩
      · rw [childrenAux_cons]
        exact toRects_cons_ok h1 hrs'
      · simp only [List.map_cons, List.sum_cons, hsum, Rect.width,
          Rect.from_xy, List.length_cons]
        push_cast
        ring

/-- C1: a tiling container with no following tiling sibling has its
primary-axis size overridden to exactly the parent's far edge minus its
own primary-axis start; consequently, for any parent rectangle and any
ordered nonempty family of tiling siblings, the resolved primary-axis
sizes plus `gap * (n - 1)` sum exactly to the parent's primary
dimension, on both axes. -/
theorem last_sibling_fill_partition :
    (∀ (od : Option TilingDirection) (p : Container) (prev : List Container)
        (q : ℚ) (hG vG : Int) (pdir : TilingDirection) (pr r : Rect),
      asDirectionContainer p = some pdir →
      toRect p = .ok pr →
      toRect (.tiling od (some p) prev 0 q hG vG) = .ok r →
      primarySize pdir r = primaryFar pdir pr - primaryStart pdir r) ∧
    (∀ (P : Rect) (dir : TilingDirection) (hG vG : Int) (sizes : List ℚ),
      sizes ≠ [] →
      ∃ rs,
        toRects (childrenAux (Container.workspace P dir) hG vG [] sizes)
          = .ok rs ∧
        (rs.map (primarySize dir)).sum
            + gapFor dir hG vG * ((sizes.length : Int) - 1)
          = primarySize dir P) := by
  constructor
  · intro od p prev q hG vG pdir pr r hdir hp hsucc
    match pdir, prev with
    | .Vertical, [] =>
      rw [toRect_vertFirst od p 0 q hG vG pr hdir hp] at hsucc
      rw [if_pos rfl] at hsucc
      simp only [Except.ok.injEq] at hsucc
      subst hsucc
      simp only [primarySize, primaryFar, primaryStart, Rect.height,
        Rect.from_xy]
      omega
    | .Vertical, s :: t =>
      cases hs : toRect s with
      | error e =>
        rw [toRect_sibErr od p s t 0 q hG vG .Vertical pr e hdir hp hs] at hsucc
        exact absurd hsucc (by simp)
      | ok sr =>
        rw [toRect_vertRest od p s t 0 q hG vG pr sr hdir hp hs] at hsucc
        rw [if_pos rfl] at hsucc
        simp only [Except.ok.injEq] at hsucc
        subst hsucc
        simp only [primarySize, primaryFar, primaryStart, Rect.height,
          Rect.from_xy]
        omega
    | .Horizontal, [] =>
      rw [toRect_horizFirst od p 0 q hG vG pr hdir hp] at hsucc
      rw [if_pos rfl] at hsucc
      simp only [Except.ok.injEq] at hsucc
      subst hsucc
      simp only [primarySize, primaryFar, primaryStart, Rect.width,
        Rect.from_xy]
      omega
    | .Horizontal, s :: t =>
      cases hs : toRect s with
      | error e =>
        rw [toRect_sibErr od p s t 0 q hG vG .Horizontal pr e hdir hp hs] at hsucc
        exact absurd hsucc (by simp)
      | ok sr =>
        rw [toRect_horizRest od p s t 0 q hG vG pr sr hdir hp hs] at hsucc
        rw [if_pos rfl] at hsucc
        simp only [Except.ok.injEq] at hsucc
        subst hsucc
        simp only [primarySize, primaryFar, primaryStart, Rect.width,
          Rect.from_xy]
        omega
  · intro P dir hG vG sizes hne
    match dir with
    | .Vertical =>
      obtain ⟨rs, hrs, hsum⟩ :=
        childrenAux_vert_sum P hG vG sizes [] P.top hne rfl
      refine ⟨rs, hrs, ?_⟩
      have hmap : rs.map (primarySize .Vertical) = rs.map Rect.height := by
        simp [primarySize, Rect.height]
      rw [hmap, hsum]
      simp only [gapFor, primarySize, Rect.height]
      ring
    | .Horizontal =>
      obtain ⟨rs, hrs, hsum⟩ :=
        childrenAux_horiz_sum P hG vG sizes [] P.left hne rfl
      refine ⟨rs, hrs, ?_⟩
      have hmap : rs.map (primarySize .Horizontal) = rs.map Rect.width := by
        simp [primarySize, Rect.width]
      rw [hmap, hsum]
      simp only [gapFor, primarySize, Rect.width]
      ring

/-- C5: placement rule — with no previous tiling sibling, both the
primary-axis and cross-axis starts equal the parent rectangle's starts;
with a previous tiling sibling, the primary-axis start is that
sibling's far edge plus the inner gap while the cross-axis start equals
the parent's; and the cross-axis size always equals the parent's full
cross-axis dimension. -/
theorem placement_rule :
    (∀ (od : Option TilingDirection) (p : Container) (nc : Nat) (q : ℚ)
        (hG vG : Int) (pdir : TilingDirection) (pr r : Rect),
      asDirectionContainer p = some pdir →
      toRect p = .ok pr →
      toRect (.tiling od (some p) [] nc q hG vG) = .ok r →
      primaryStart pdir r = primaryStart pdir pr ∧
      crossStart pdir r = crossStart pdir pr ∧
      crossSize pdir r = crossSize pdir pr) ∧
    (∀ (od : Option TilingDirection) (p s : Container) (t : List Container)
        (nc : Nat) (q : ℚ) (hG vG : Int) (pdir : TilingDirection)
        (pr sr r : Rect),
      asDirectionContainer p = some pdir →
      toRect p = .ok pr →
      toRect s = .ok sr →
      toRect (.tiling od (some p) (s :: t) nc q hG vG) = .ok r →
      primaryStart pdir r = primaryFar pdir sr + gapFor pdir hG vG ∧
      crossStart pdir r = crossStart pdir pr ∧
      crossSize pdir r = crossSize pdir pr) := by
  constructor
  · intro od p nc q hG vG pdir pr r hdir hp hsucc
    match pdir with
    | .Vertical =>
      rw [toRect_vertFirst od p nc q hG vG pr hdir hp] at hsucc
      simp only [Except.ok.injEq] at hsucc
      subst hsucc
      simp [primaryStart, crossStart, crossSize, Rect.width, Rect.from_xy]
      try omega
    | .Horizontal =>
      rw [toRect_horizFirst od p nc q hG vG pr hdir hp] at hsucc
      simp only [Except.ok.injEq] at hsucc
      subst hsucc
      simp [primaryStart, crossStart, crossSize, Rect.height, Rect.from_xy]
      try omega
  · intro od p s t nc q hG vG pdir pr sr r hdir hp hs hsucc
    match pdir with
    | .Vertical =>
      rw [toRect_vertRest od p s t nc q hG vG pr sr hdir hp hs] at hsucc
      simp only [Except.ok.injEq] at hsucc
      subst hsucc
      simp [primaryStart, primaryFar, crossStart, crossSize, gapFor,
        Rect.width, Rect.from_xy]
      try omega
    | .Horizontal =>
      rw [toRect_horizRest od p s t nc q hG vG pr sr hdir hp hs] at hsucc
      simp only [Except.ok.injEq] at hsucc
      subst hsucc
      simp [primaryStart, primaryFar, crossStart, crossSize, gapFor,
        Rect.height, Rect.from_xy]
      try omega

/-- Helper: a container whose recursive resolution path consists of
direction-capable parents always resolves to a rectangle. -/
theorem resolvable_toRect_ok (c : Container) (hc : Resolvable c) :
    ∃ r, toRect c = .ok r := by
  induction hc with
  | workspace rect d => exact ⟨rect, toRect_workspace rect d⟩
  | @tilingFirst p d od nc q hG vG hdir hp ihp =>
    obtain ⟨pr, hpr⟩ := ihp
    match d, hdir with
    | .Vertical, hdir =>
      exact ⟨_, toRect_vertFirst od p nc q hG vG pr hdir hpr⟩
    | .Horizontal, hdir =>
      exact ⟨_, toRect_horizFirst od p nc q hG vG pr hdir hpr⟩
  | @tilingRest p s d od t nc q hG vG hdir hp hs ihp ihs =>
    obtain ⟨pr, hpr⟩ := ihp
    obtain ⟨sr, hsr⟩ := ihs
    match d, hdir with
    | .Vertical, hdir =>
      exact ⟨_, toRect_vertRest od p s t nc q hG vG pr sr hdir hpr hsr⟩
    | .Horizontal, hdir =>
      exact ⟨_, toRect_horizRest od p s t nc q hG vG pr sr hdir hpr hsr⟩

/-- C4: the resolver fails with the structural layout error when the
parent is absent or not direction-capable; an error from the recursive
parent or previous-sibling resolution propagates unchanged; and when
every container on the recursive resolution path has a
direction-capable parent, the resolver returns a rectangle. -/
theorem resolver_error_handling :
    (∀ (od : Option TilingDirection) (prev : List Container) (nc : Nat)
        (q : ℚ) (hG vG : Int),
      toRect (.tiling od none prev nc q hG vG) = .error structuralErr) ∧
    (∀ (od : Option TilingDirection) (p : Container) (prev : List Container)
        (nc : Nat) (q : ℚ) (hG vG : Int),
      asDirectionContainer p = none →
      toRect (.tiling od (some p) prev nc q hG vG) = .error structuralErr) ∧
    (∀ (od : Option TilingDirection) (p : Container) (prev : List Container)
        (nc : Nat) (q : ℚ) (hG vG : Int) (pdir : TilingDirection) (e : String),
      asDirectionContainer p = some pdir →
      toRect p = .error e →
      toRect (.tiling od (some p) prev nc q hG vG) = .error e) ∧
    (∀ (od : Option TilingDirection) (p s : Container) (t : List Container)
        (nc : Nat) (q : ℚ) (hG vG : Int) (pdir : TilingDirection) (pr : Rect)
        (e : String),
      asDirectionContainer p = some pdir →
      toRect p = .ok pr →
      toRect s = .error e →
      toRect (.tiling od (some p) (s :: t) nc q hG vG) = .error e) ∧
    (∀ c : Container, Resolvable c → ∃ r, toRect c = .ok r) := by
  refine ⟨?_, ?_, ?_, ?_, ?_⟩
  · intro od prev nc q hG vG
    exact toRect_parentNone od prev nc q hG vG
  · intro od p prev nc q hG vG h
    exact toRect_parentNoDir od p prev nc q hG vG h
  · intro od p prev nc q hG vG pdir e hdir hp
    exact toRect_parentErr od p prev nc q hG vG pdir e hdir hp
  · intro od p s t nc q hG vG pdir pr e hdir hp hs
    exact toRect_sibErr od p s t nc q hG vG pdir pr e hdir hp hs
  · intro c hc
    exact resolvable_toRect_ok c hc

/-- Witness for C1: a single child of a 100 by 100 vertical workspace
fills it entirely, and a two-child half-and-half family with gap 5
partitions the height exactly. -/
theorem last_sibling_fill_partition_witness :
    primarySize .Vertical (⟨0, 0, 100, 100⟩ : Rect) =
      primaryFar .Vertical (⟨0, 0, 100, 100⟩ : Rect)
        - primaryStart .Vertical (⟨0, 0, 100, 100⟩ : Rect) ∧
    ∃ rs,
      toRects (childrenAux (Container.workspace ⟨0, 0, 100, 100⟩ .Vertical)
          5 5 [] [1 / 2, 1 / 2]) = .ok rs ∧
      (rs.map (primarySize .Vertical)).sum
          + gapFor .Vertical 5 5 * ((([1 / 2, 1 / 2] : List ℚ).length : Int) - 1)
        = primarySize .Vertical (⟨0, 0, 100, 100⟩ : Rect) := by
  have htr : toRect (Container.tiling none
      (some (Container.workspace ⟨0, 0, 100, 100⟩ .Vertical)) [] 0 1 5 5) =
      .ok ⟨0, 0, 100, 100⟩ := by
    rw [toRect_vertFirst none (Container.workspace ⟨0, 0, 100, 100⟩ .Vertical)
      0 1 5 5 ⟨0, 0, 100, 100⟩ rfl (toRect_workspace _ _)]
    norm_num [Rect.from_xy]
  exact ⟨last_sibling_fill_partition.1 none
      (Container.workspace ⟨0, 0, 100, 100⟩ .Vertical) [] 1 5 5 .Vertical
      ⟨0, 0, 100, 100⟩ ⟨0, 0, 100, 100⟩ rfl (toRect_workspace _ _) htr,
    last_sibling_fill_partition.2 ⟨0, 0, 100, 100⟩ .Vertical 5 5
      [1 / 2, 1 / 2] (by simp)⟩

/-- Witness for C5: placement of the only child and of a second child
after a resolved sibling under a 100 by 100 vertical workspace with
gap 10. -/
theorem placement_rule_witness :
    (primaryStart .Vertical (⟨0, 0, 100, 100⟩ : Rect) =
        primaryStart .Vertical (⟨0, 0, 100, 100⟩ : Rect) ∧
      crossStart .Vertical (⟨0, 0, 100, 100⟩ : Rect) =
        crossStart .Vertical (⟨0, 0, 100, 100⟩ : Rect) ∧
      crossSize .Vertical (⟨0, 0, 100, 100⟩ : Rect) =
        crossSize .Vertical (⟨0, 0, 100, 100⟩ : Rect)) ∧
    (primaryStart .Vertical (⟨0, 110, 100, 100⟩ : Rect) =
        primaryFar .Vertical (⟨0, 0, 100, 100⟩ : Rect) + gapFor .Vertical 10 10 ∧
      crossStart .Vertical (⟨0, 110, 100, 100⟩ : Rect) =
        crossStart .Vertical (⟨0, 0, 100, 100⟩ : Rect) ∧
      crossSize .Vertical (⟨0, 110, 100, 100⟩ : Rect) =
        crossSize .Vertical (⟨0, 0, 100, 100⟩ : Rect)) := by
  have htr : toRect (Container.tiling none
      (some (Container.workspace ⟨0, 0, 100, 100⟩ .Vertical)) [] 0 1 10 10) =
      .ok ⟨0, 0, 100, 100⟩ := by
    rw [toRect_vertFirst none (Container.workspace ⟨0, 0, 100, 100⟩ .Vertical)
      0 1 10 10 ⟨0, 0, 100, 100⟩ rfl (toRect_workspace _ _)]
    norm_num [Rect.from_xy]
  have htr2 : toRect (Container.tiling none
      (some (Container.workspace ⟨0, 0, 100, 100⟩ .Vertical))
      [Container.tiling none
        (some (Container.workspace ⟨0, 0, 100, 100⟩ .Vertical)) [] 0 1 10 10]
      0 1 10 10) = .ok ⟨0, 110, 100, 100⟩ := by
    rw [toRect_vertRest none (Container.workspace ⟨0, 0, 100, 100⟩ .Vertical)
      (Container.tiling none
        (some (Container.workspace ⟨0, 0, 100, 100⟩ .Vertical)) [] 0 1 10 10)
      [] 0 1 10 10 ⟨0, 0, 100, 100⟩ ⟨0, 0, 100, 100⟩ rfl
      (toRect_workspace _ _) htr]
    norm_num [Rect.from_xy]
  exact ⟨placement_rule.1 none
      (Container.workspace ⟨0, 0, 100, 100⟩ .Vertical) 0 1 10 10 .Vertical
      ⟨0, 0, 100, 100⟩ ⟨0, 0, 100, 100⟩ rfl (toRect_workspace _ _) htr,
    placement_rule.2 none (Container.workspace ⟨0, 0, 100, 100⟩ .Vertical)
      (Container.tiling none
        (some (Container.workspace ⟨0, 0, 100, 100⟩ .Vertical)) [] 0 1 10 10)
      [] 0 1 10 10 .Vertical ⟨0, 0, 100, 100⟩ ⟨0, 0, 100, 100⟩
      ⟨0, 110, 100, 100⟩ rfl (toRect_workspace _ _) htr htr2⟩

/-- Witness for C4: the five error-handling conjuncts at concrete
containers — missing parent, direction-incapable parent, propagated
parent error, propagated sibling error, and a fully resolvable child. -/
theorem resolver_error_handling_witness :
    toRect (.tiling none none [] 0 1 0 0) = .error structuralErr ∧
    toRect (.tiling none (some (.tiling none none [] 0 1 0 0)) [] 0 1 0 0)
      = .error structuralErr ∧
    toRect (.tiling none (some (.tiling (some .Vertical) none [] 0 1 0 0))
        [] 0 1 0 0) = .error structuralErr ∧
    toRect (.tiling none (some (Container.workspace ⟨0, 0, 100, 100⟩ .Vertical))
        [.tiling none none [] 0 1 0 0] 0 1 0 0) = .error structuralErr ∧
    ∃ r, toRect (.tiling none
        (some (Container.workspace ⟨0, 0, 100, 100⟩ .Vertical)) [] 0 1 5 5)
      = .ok r := by
  refine ⟨resolver_error_handling.1 none [] 0 1 0 0,
    resolver_error_handling.2.1 none (.tiling none none [] 0 1 0 0) [] 0 1 0 0 rfl,
    resolver_error_handling.2.2.1 none (.tiling (some .Vertical) none [] 0 1 0 0)
      [] 0 1 0 0 .Vertical structuralErr rfl
      (toRect_parentNone none [] 0 1 0 0),
    resolver_error_handling.2.2.2.1 none
      (Container.workspace ⟨0, 0, 100, 100⟩ .Vertical)
      (.tiling none none [] 0 1 0 0) [] 0 1 0 0 .Vertical ⟨0, 0, 100, 100⟩
      structuralErr rfl (toRect_workspace _ _)
      (toRect_parentNone none [] 0 1 0 0),
    resolver_error_handling.2.2.2.2 _
      (Resolvable.tilingFirst none 0 1 5 5 rfl
        (Resolvable.workspace ⟨0, 0, 100, 100⟩ .Vertical))⟩

end Glaze
